import Mathlib

/-!
# Verification of the streaming aggregation engine (`nodeAgg.c`)

Shallow embedding of the aggregation executor of `src/backend/executor/nodeAgg.c`
and proofs about the claims of its natural-language specification.

Modelling conventions:

* A `Datum` is modelled as an `Int`; a nullable value (datum plus null flag)
  is an `Option Int`, with `none` standing for SQL null.
* A transition function receives the current transition value (as an
  `Option Int`, combining `fcinfo->arg[0]` and `fcinfo->argnull[0]`) and the
  argument values `argv[1..]`, and returns the new value (`none` = the
  function set `fcinfo->isnull`).
* Memory-context switching, datum copying and freeing are not observable in
  the value-level model and are dropped; the flags and values they carry are
  kept exactly as the C code computes them.
-/

namespace NodeAgg

/-- One per-group transition state: `AggStatePerGroupData` of `nodeAgg.c`
(fields `transValue`, `transValueIsNull`, `noTransValue`). The datum stored
while `transValueIsNull` is set is irrelevant garbage in C; the model keeps
whatever value the code last wrote. -/
structure PerGroupState where
  transValue : Int
  transValueIsNull : Bool
  noTransValue : Bool
deriving DecidableEq, Repr

/-- A transition function handle: current state (with null flag) and the
argument list `argv[1..]` to the new state (with null flag). -/
def TransFn : Type := Option Int → List (Option Int) → Option Int

/-- A combine function handle: two states to a state. -/
def CombineFn : Type := Option Int → Option Int → Option Int

/-- Extract the raw datum component of a nullable value (the datum slot of a
null argument holds garbage in C; the model reads `0`). -/
def datumOf (v : Option Int) : Int := v.getD 0

/-- The strict-transition null scan of `advance_transition_function`:
`for (i = 1; i <= numTransInputs; i++) if (fcinfo->argnull[i]) return;`.
`args` is `argv[1..]`, so the C indices `1..numTransInputs` are the first
`numTransInputs` list elements. -/
def anyNullArg (args : List (Option Int)) (numTransInputs : Nat) : Bool :=
  (args.take numTransInputs).any (fun a => a.isNone)

/-- The unconditional tail of `advance_transition_function` (nodeAgg.c:932-986):
invoke the transition function with `arg[0] = transValue`,
`argnull[0] = transValueIsNull`, store the result and its null flag.
`noTransValue` is not written by this path. -/
def invokeTransFn (transfn : TransFn) (args : List (Option Int))
    (pg : PerGroupState) : PerGroupState :=
  let newVal := transfn (if pg.transValueIsNull then none else some pg.transValue) args
  { transValue := datumOf newVal
    transValueIsNull := newVal.isNone
    noTransValue := pg.noTransValue }

/-- `advance_transition_function` (nodeAgg.c:877-987). `strict` is
`pertrans->transfn.fn_strict`; `args` holds the preloaded argument values
`argv[1..]` of `pertrans->transfn_fcinfo`. -/
def advance_transition_function (strict : Bool) (numTransInputs : Nat)
    (transfn : TransFn) (args : List (Option Int))
    (pg : PerGroupState) : PerGroupState :=
  if strict then
    if anyNullArg args numTransInputs then
      pg
    else if pg.noTransValue then
      -- first non-NULL input: adopt argv[1] as the transition value
      { transValue := datumOf (args.getD 0 none)
        transValueIsNull := false
        noTransValue := false }
    else if pg.transValueIsNull then
      -- strict transfn returned NULL earlier: propagate the NULL
      pg
    else
      invokeTransFn transfn args pg
  else
    invokeTransFn transfn args pg

/-- The unconditional tail of `advance_combine_function` (nodeAgg.c:1282-1337)
and of `combine_transition` (nodeAgg.c:2584-2639): invoke the combine function
with `arg[0] = transValue`, `arg[1] = incoming`, store result and null flag.
`noTransValue` is not written by this path. -/
def invokeCombineFn (combinefn : CombineFn) (incoming : Option Int)
    (pg : PerGroupState) : PerGroupState :=
  let newVal := combinefn (if pg.transValueIsNull then none else some pg.transValue) incoming
  { transValue := datumOf newVal
    transValueIsNull := newVal.isNone
    noTransValue := pg.noTransValue }

/-- `advance_combine_function` (nodeAgg.c:1243-1338), the combine step of the
split-mode input path (`combine_aggregates`). `incoming` is
`fcinfo->arg[1]`/`argnull[1]`, the deserialized incoming partial state. -/
def advance_combine_function (strict : Bool) (combinefn : CombineFn)
    (incoming : Option Int) (pg : PerGroupState) : PerGroupState :=
  if strict then
    if incoming.isNone then
      -- asked to merge a NULL state: do nothing
      pg
    else if pg.noTransValue then
      -- transValue not yet initialized: adopt the incoming state directly
      { transValue := datumOf incoming
        transValueIsNull := false
        noTransValue := false }
    else
      invokeCombineFn combinefn incoming pg
  else
    invokeCombineFn combinefn incoming pg

/-- `combine_transition` (nodeAgg.c:2543-2640), the combine step of the hybrid
spill reload path (`LoadHybridHashtable`). The `noTransValue` short-circuit of
`advance_combine_function` is compiled out here (`#if 0`, "we always have
value"), so a non-null incoming state always reaches the combine function. -/
def combine_transition (strict : Bool) (combinefn : CombineFn)
    (incoming : Option Int) (pg : PerGroupState) : PerGroupState :=
  if strict then
    if incoming.isNone then
      -- asked to merge a NULL state: do nothing
      pg
    else
      invokeCombineFn combinefn incoming pg
  else
    invokeCombineFn combinefn incoming pg

/-- `initialize_aggregate` (nodeAgg.c:741-810), the per-group part: the state
is seeded from the transition slot's initial value; `noTransValue` is set iff
the initial value is null. -/
def initialize_aggregate (initValue : Option Int) : PerGroupState :=
  { transValue := datumOf initValue
    transValueIsNull := initValue.isNone
    noTransValue := initValue.isNone }

/-! ## Hybrid hash table (capacity-bounded lookup-or-insert) -/

/-- Modelled from the spec: the backing tuple hash table (`simplehash` with
the hybrid capacity extension, configured through `tuplehash_set_hybrid`; its
implementation lives outside `src/`). The spec gives its contract: "max
entries in memory E"; on `lookup_or_insert`, a present key returns its entry,
a new key is admitted while fewer than E entries are resident, and "if the
table is at capacity and the key is new" the lookup fails (returns no entry,
which triggers the dump in `lookup_hash_entry`). Keys are modelled as `Nat`;
`keys` is the list of resident keys, distinct by construction. -/
structure HybridHashTable where
  nentries : Nat
  keys : List Nat
deriving DecidableEq, Repr

/-- `LookupTupleHashEntry` under the hybrid capacity bound: returns the
updated table and an `isnew` flag, or `none` when the table is full and the
key is absent. -/
def lookupTupleHashEntry (t : HybridHashTable) (k : Nat) :
    Option (HybridHashTable × Bool) :=
  if k ∈ t.keys then some (t, false)
  else if t.keys.length < t.nentries then
    some ({ t with keys := t.keys ++ [k] }, true)
  else none

/-- The memory-resident effect of `DumpHybridHashtable` (nodeAgg.c:2305-2540):
after every resident entry has been appended to its batch file, the table is
reset (`tuplehash_reset`) and its arena cleared (`MemoryContextReset` of
`hybridcxt`), leaving no resident entries. The on-disk side is modelled
separately for the reload claims. -/
def dumpHybridReset (t : HybridHashTable) : HybridHashTable :=
  { t with keys := [] }

/-- The hybrid branch of `lookup_hash_entry` (nodeAgg.c:2128-2160): probe the
table; on failure dump (reset) and retry; a second failure is the
`elog(ERROR, "could not find entry in hybrid-hashtable")` branch, modelled as
`none`. -/
def lookup_hash_entry_hybrid (t : HybridHashTable) (k : Nat) :
    Option (HybridHashTable × Bool) :=
  match lookupTupleHashEntry t k with
  | some r => some r
  | none =>
    match lookupTupleHashEntry (dumpHybridReset t) k with
    | some r => some r
    | none => none

/-! ## Hybrid sizing -/

/-- Result of `OptimizeHybridHashtableSize`: the fields it stores into the
hash table (`hashtable->nentries`, `hashtable->nbatches`). -/
structure HybridSizing where
  nentries : Nat
  nbatches : Nat
deriving DecidableEq, Repr

/-- `OptimizeHybridHashtableSize` (nodeAgg.c:2262-2299). `work_mem` is in
kilobytes (`max_mem = work_mem * 1024L`). In the C source both branches set
`nentries = ceil(max_mem/entrySize)`; the division is C integer division
(long / uint32), already truncated, so `ceil` is the identity and the stored
entry bound is the floor. The first branch also estimates
`nbatches = ceil(numGroups/nentries)`, but that estimate is dead: the very
next statement unconditionally overwrites `nbatches` with
`g_default_hashagg_nbatches`. -/
def OptimizeHybridHashtableSize (work_mem entrySize numGroups
    g_default_hashagg_nbatches : Nat) : HybridSizing :=
  let max_mem := work_mem * 1024
  let nentries :=
    if max_mem ≤ entrySize * numGroups then max_mem / entrySize
    else max_mem / entrySize
  let nbatches := g_default_hashagg_nbatches
  { nentries := nentries, nbatches := nbatches }

/-! ## Spill sets and the reload path -/

/-- A `SpillSet` (nodeAgg.c) minus its batch-file array: recursion `level`,
number of batch slots `num_files`, `parent_index` (−1 at the root),
`current_file` (next batch index to reload), and the `parent_spill_set`
pointer, modelled by nesting the parent value. -/
inductive SpillSetT : Type where
  | mk (level : Nat) (num_files : Nat) (parent_index : Int)
      (current_file : Nat) (parent : Option SpillSetT) : SpillSetT

def SpillSetT.level : SpillSetT → Nat
  | .mk l _ _ _ _ => l

def SpillSetT.num_files : SpillSetT → Nat
  | .mk _ n _ _ _ => n

def SpillSetT.parent_index : SpillSetT → Int
  | .mk _ _ p _ _ => p

def SpillSetT.current_file : SpillSetT → Nat
  | .mk _ _ _ c _ => c

def SpillSetT.parent : SpillSetT → Option SpillSetT
  | .mk _ _ _ _ p => p

/-- The child spill set allocated by `LoadHybridHashtable`
(nodeAgg.c:2824-2846) when the table overflows while reloading a batch of
`spill_set`: `current_file = 0`, `level = spill_set->level + 1`,
`num_files = spill_set->num_files + 1`,
`parent_index = spill_set->current_file`,
`parent_spill_set = spill_set`. -/
def makeChildSpillSet (spill_set : SpillSetT) : SpillSetT :=
  .mk (spill_set.level + 1) (spill_set.num_files + 1)
    (Int.ofNat spill_set.current_file) 0 (some spill_set)

/-- One record of a batch file: the stored hash key (`u32` written before the
payload) and the group key it carries (the minimal tuple, reduced to the key
the hash table compares). -/
structure SpillRecord where
  hash : Nat
  key : Nat
deriving DecidableEq, Repr

/-- Append a record to batch `idx` of a child spill set's batch array. -/
def appendAt (batches : List (List SpillRecord)) (idx : Nat)
    (r : SpillRecord) : List (List SpillRecord) :=
  batches.set idx (batches.getD idx [] ++ [r])

/-- State while reloading one batch file: the resident hash table, and the
child spill set (with the contents of its batch files) once the first
overflow has created it (`spill_file->spilled` / `child_spill_set`). -/
structure ReloadState where
  table : HybridHashTable
  child : Option (SpillSetT × List (List SpillRecord))

/-- Processing of one record read back from the current batch file of
`spill_set` in `LoadHybridHashtable` (nodeAgg.c:2748-2961):
`tuplehash_insert_with_key` either finds the key (merge via
`combine_transition`), admits it as a new entry, or fails because the table
is full again; on failure the record is appended to batch
`hashkey % child->num_files` of the child spill set, which is allocated with
`makeChildSpillSet` the first time this happens. The per-group merge itself
is covered by the `combine_transition` model; here only residency and routing
are tracked. -/
def reloadRecord (spill_set : SpillSetT) (s : ReloadState)
    (r : SpillRecord) : ReloadState :=
  match lookupTupleHashEntry s.table r.key with
  | some (t2, _) => { s with table := t2 }
  | none =>
    let cb :=
      match s.child with
      | some cb => cb
      | none =>
        (makeChildSpillSet spill_set,
         List.replicate (spill_set.num_files + 1) [])
    let idx := r.hash % cb.1.num_files
    { s with child := some (cb.1, appendAt cb.2 idx r) }

/-- Reload a whole batch file: fold `reloadRecord` over its records. -/
def reloadBatch (spill_set : SpillSetT) (s : ReloadState)
    (rs : List SpillRecord) : ReloadState :=
  rs.foldl (reloadRecord spill_set) s

/-! ## Parallel redistribution -/

/-- `ReDistributeHash` (nodeAgg.c:6112-6167). The C function is a `switch`
over the column's type with one arm per numeric type — but no arm ends in
`break`, so control falls through every following arm into `default`, whose
assignment overwrites `result`. The value actually returned is therefore
always the default arm's
`abs(((unsigned int) hashfunc(value) % (1 << numWorkers)) % numWorkers)`,
independent of `dataType`; the per-type `(val % num) % numWorkers`
computations are dead stores. `hashfunc` returns a signed 32-bit value that
the C code casts to `unsigned int`, modelled by `% 2^32` on the
two's-complement embedding; the final `abs` is the identity on the
already-nonnegative remainder. -/
def ReDistributeHash (_dataType : Nat) (numWorkers : Nat) (value : Int)
    (hashfunc : Int → Int) : Nat :=
  let num := 2 ^ numWorkers
  let hashvalue := ((hashfunc value) % (2 : Int) ^ 32).toNat
  (hashvalue % num) % numWorkers

/-- The destination choice of `ReDistributeData` (nodeAgg.c:5579-5597): a
null key routes to worker 0, otherwise to `ReDistributeHash`; the row is kept
locally (the function returns `false` without publishing) exactly when the
destination equals the worker's own index `ParallelWorkerNumber`. Only the
destination decision is modelled; the ring-buffer/temp-file publication and
the opportunistic consumption of peer rows are outside this claim. -/
def ReDistributeKeepLocal (selfIndex : Nat) (dataType : Nat)
    (numWorkers : Nat) (isnull : Bool) (value : Int)
    (hashfunc : Int → Int) : Bool :=
  let indexSendWorker :=
    if isnull then 0 else ReDistributeHash dataType numWorkers value hashfunc
  indexSendWorker == selfIndex

/-! ## The direct (sorted/plain) retrieval loop on an empty input stream -/

/-- The aggregation strategies of the plan node (`AggStrategy`). -/
inductive AggStrategy where
  | plain
  | sorted
  | hashed
  | mixed
deriving DecidableEq, Repr

/-- The orchestration state that `agg_retrieve_direct` reads and writes on an
empty input stream: the phase's grouping-set sizes
(`aggstate->phase->gset_lengths`, most specific set first), `projected_set`
(−1 before the first group), `input_done` and `agg_done`. -/
structure AggRunState where
  strategy : AggStrategy
  gsetLengths : List Nat
  projected_set : Int
  input_done : Bool
  agg_done : Bool
deriving DecidableEq, Repr

/-- The advance of `projected_set` on empty input
(nodeAgg.c:3237-3250): starting from 0, step past every grouping set with at
least one grouping column, stopping at the first empty set or at
`numGroupingSets`. Equals the length of the maximal prefix of positive
lengths. -/
def firstZeroIndex (L : List Nat) : Nat :=
  (L.takeWhile (fun x => 0 < x)).length

/-- One call of `agg_retrieve_direct` (nodeAgg.c:3036-3390) specialized to:
a single phase (`numphases = 1`), strategy `AGG_PLAIN` or `AGG_SORTED`, a
child that yields no rows, and a passing qual (so every finalized group is
projected). Returns the projected row (`some ()`) or end of stream (`none`),
plus the successor state. The `fuel` bounds the `continue` of the outer
`while (!aggstate->agg_done)` loop; two steps always suffice here.

Branches, in source order: the phase-completion check
(`input_done && projected_set >= numGroupingSets - 1` ends the single,
non-mixed phase with `agg_done = true`), the group-boundary test (with
`input_done` set it degenerates to true and projects the next grouping set),
and the fetch branch (empty fetch: with grouping sets, advance
`projected_set` to the first empty set and project it, or `continue` when
there is none; without grouping sets, set `agg_done` and project one row only
under `AGG_PLAIN`). -/
def agg_retrieve_direct_empty : Nat → AggRunState → Option Unit × AggRunState
  | 0, s => (none, s)
  | fuel + 1, s =>
    if s.agg_done then (none, s)
    else
      let numsets := s.gsetLengths.length
      let hasGroupingSets : Bool := 0 < numsets
      let numGroupingSets : Int := Int.ofNat (max numsets 1)
      if s.input_done ∧ numGroupingSets - 1 ≤ s.projected_set then
        (none, { s with agg_done := true })
      else if s.input_done then
        (some (), { s with projected_set := s.projected_set + 1 })
      else if hasGroupingSets then
        let p := firstZeroIndex s.gsetLengths
        if numsets ≤ p then
          agg_retrieve_direct_empty fuel
            { s with projected_set := Int.ofNat p, input_done := true }
        else
          (some (), { s with projected_set := Int.ofNat p, input_done := true })
      else if s.strategy = .plain then
        (some (), { s with projected_set := 0, agg_done := true })
      else
        (none, { s with projected_set := 0, agg_done := true })

/-- `ExecAgg` (nodeAgg.c:3000-3031): when `agg_done` is already set the
dispatch is skipped and `NULL` is returned with the state untouched;
otherwise dispatch on the strategy. The hashed/mixed retrieval
(`agg_fill_hash_table` / `agg_retrieve_hash_table`) is abstracted as the
`hashPath` parameter; the plain/sorted path is the empty-input direct loop
above. -/
def ExecAggModel (hashPath : AggRunState → Option Unit × AggRunState)
    (s : AggRunState) : Option Unit × AggRunState :=
  if s.agg_done then (none, s)
  else
    match s.strategy with
    | .hashed => hashPath s
    | .mixed => hashPath s
    | .plain => agg_retrieve_direct_empty (s.gsetLengths.length + 2) s
    | .sorted => agg_retrieve_direct_empty (s.gsetLengths.length + 2) s

/-- Iterate `ExecAggModel`, collecting the produced rows in order. -/
def ExecAggIter (hashPath : AggRunState → Option Unit × AggRunState) :
    Nat → AggRunState → List (Option Unit) × AggRunState
  | 0, s => ([], s)
  | n + 1, s =>
    let r := ExecAggModel hashPath s
    let rest := ExecAggIter hashPath n r.2
    (r.1 :: rest.1, rest.2)

/-- The state at the first `next()` call: `projected_set = -1`, nothing done
yet. -/
def initialAggState (strategy : AggStrategy) (L : List Nat) : AggRunState :=
  { strategy := strategy
    gsetLengths := L
    projected_set := -1
    input_done := false
    agg_done := false }

/-- Count the rows produced by repeated `next()` calls of the direct path
until the first end-of-stream answer, bounded by `k` calls. -/
def runEmptyCalls : Nat → AggRunState → Nat
  | 0, _ => 0
  | k + 1, s =>
    match agg_retrieve_direct_empty (s.gsetLengths.length + 2) s with
    | (none, _) => 0
    | (some _, s2) => 1 + runEmptyCalls k s2

/-- Total number of rows the aggregator emits for an empty input stream
(single phase, passing qual). -/
def emptyInputRows (strategy : AggStrategy) (L : List Nat) : Nat :=
  runEmptyCalls (L.length + 2) (initialAggState strategy L)

/-! ## Routing of sort-column aggregates (`advance_aggregates` /
`finalize_aggregates`) -/

/-- The per-transition data `advance_aggregates` consults for one input
tuple: the slot's static fields (`fn_strict`, `numTransInputs`,
`numSortCols`, the transition function) together with this tuple's evaluated
`FILTER` outcome and argument values. -/
structure TransSlotInput where
  strict : Bool
  numTransInputs : Nat
  numSortCols : Nat
  transfn : TransFn
  filterPass : Bool
  args : List (Option Int)

/-- The state one transition slot owns while a tuple is advanced: its sorted
per-group states (one per grouping set, present iff `pergroup` is non-null),
its hashed per-group states (one per hashed set, present iff `pergroups` is
non-null), and its pending sorter contents (the rows inserted so far for a
DISTINCT/ORDER BY aggregate; the per-set fan-out of `sortstates` is collapsed
into one list, which the routing claims do not distinguish). -/
structure TransSlotState where
  sorted : Option (List PerGroupState)
  hashed : Option (List PerGroupState)
  sorter : List (List (Option Int))

/-- The body of the per-transition loop of `advance_aggregates`
(nodeAgg.c:1014-1141) for one slot, with `Assert` given its assert-enabled
semantics (a failed assertion aborts, modelled as `none`):

* a tuple rejected by the slot's `FILTER` leaves everything unchanged;
* `numSortCols > 0` (DISTINCT/ORDER BY): `Assert(!pergroups)`; a strict
  transition function drops the tuple when a transition input is null;
  otherwise the argument row goes into the sorter — the transition function
  is not called and no per-group state moves;
* otherwise the transition function advances every sorted and every hashed
  per-group state via `advance_transition_function`. -/
def advance_one_trans (t : TransSlotInput) (st : TransSlotState) :
    Option TransSlotState :=
  if !t.filterPass then some st
  else if 0 < t.numSortCols then
    if st.hashed.isSome then none
    else if t.strict && anyNullArg t.args t.numTransInputs then some st
    else some { st with sorter := st.sorter ++ [t.args] }
  else
    some
      { st with
        sorted := st.sorted.map
          (List.map (advance_transition_function t.strict t.numTransInputs
            t.transfn t.args))
        hashed := st.hashed.map
          (List.map (advance_transition_function t.strict t.numTransInputs
            t.transfn t.args)) }

/-- `advance_aggregates` over all transition slots (each paired with its
state), failing if any slot's assertion fails. -/
def advance_aggregates (slots : List (TransSlotInput × TransSlotState)) :
    Option (List (TransSlotInput × TransSlotState)) :=
  slots.mapM (fun p => (advance_one_trans p.1 p.2).map (fun st => (p.1, st)))

/-- The sorter-draining loop of `finalize_aggregates` (nodeAgg.c:1789-1810)
for one slot: slots with sort columns assert
`aggstrategy != AGG_HASHED && aggstrategy != AGG_MIXED` and then drain their
sorter through `process_ordered_aggregate_single/multi` (returned as `true`);
slots without sort columns drain nothing (`false`). -/
def finalize_one_trans (strategy : AggStrategy) (numSortCols : Nat) :
    Option Bool :=
  if 0 < numSortCols then
    if strategy = .hashed ∨ strategy = .mixed then none
    else some true
  else some false

/-- The sorter-draining pass of `finalize_aggregates` over all transition
slots: which slots drained, or an assertion failure. -/
def finalize_aggregates_drain (strategy : AggStrategy)
    (sortCols : List Nat) : Option (List Bool) :=
  sortCols.mapM (finalize_one_trans strategy)

/-!
## Theorems
-/

/-- C1: for a strict transition function, advancing a per-group state is a
three-way case split: a null among `argv[1..numTransInputs]` returns the
state unchanged; otherwise with `noTransValue` set, `argv[1]` becomes the new
`transValue` with both flags cleared and the transition function is not
called (the result is the same for every transition function); otherwise with
`transValueIsNull` set, the state is returned unchanged, propagating the null
to every later row of the group. -/
theorem advance_transition_strict_three_way (numTransInputs : Nat)
    (transfn : TransFn) (args : List (Option Int)) (pg : PerGroupState) :
    (anyNullArg args numTransInputs = true →
      advance_transition_function true numTransInputs transfn args pg = pg)
    ∧ (anyNullArg args numTransInputs = false → pg.noTransValue = true →
      advance_transition_function true numTransInputs transfn args pg =
        { transValue := datumOf (args.getD 0 none)
          transValueIsNull := false
          noTransValue := false }
      ∧ ∀ g : TransFn,
        advance_transition_function true numTransInputs transfn args pg =
          advance_transition_function true numTransInputs g args pg)
    ∧ (anyNullArg args numTransInputs = false → pg.noTransValue = false →
      pg.transValueIsNull = true →
      advance_transition_function true numTransInputs transfn args pg = pg) := by
  refine ⟨fun h1 => ?_, fun h1 h2 => ⟨?_, fun g => ?_⟩, fun h1 h2 h3 => ?_⟩
  · simp [advance_transition_function, h1]
  · simp [advance_transition_function, h1, h2]
  · simp [advance_transition_function, h1, h2]
  · simp [advance_transition_function, h1, h2, h3]

/-- Witness for C1 at a concrete input: one non-null argument, a state with
`noTransValue` set; the first value is adopted. -/
theorem advance_transition_strict_three_way_witness :
    anyNullArg [some 5] 1 = false ∧
      advance_transition_function true 1 (fun _ _ => none) [some 5]
          { transValue := 0, transValueIsNull := true, noTransValue := true } =
        { transValue := 5, transValueIsNull := false, noTransValue := false } :=
  ⟨rfl,
    ((advance_transition_strict_three_way 1 (fun _ _ => none) [some 5]
      { transValue := 0, transValueIsNull := true, noTransValue := true }).2.1
      rfl rfl).1⟩

/-- C2 counterexample: the split-mode combine step `advance_combine_function`
IS short-circuited on `noTransValue` — with a strict combine function and a
non-null incoming state it adopts the incoming value (5) directly instead of
invoking the combine function (which here would produce 99), contradicting
the claim that no combine path short-circuits on `noTransValue`. -/
theorem advance_combine_short_circuits_counterexample :
    advance_combine_function true (fun _ _ => some 99) (some 5)
        { transValue := 0, transValueIsNull := true, noTransValue := true } =
      { transValue := 5, transValueIsNull := false, noTransValue := false }
    ∧ invokeCombineFn (fun _ _ => some 99) (some 5)
        { transValue := 0, transValueIsNull := true, noTransValue := true } =
      { transValue := 99, transValueIsNull := false, noTransValue := true }
    ∧ advance_combine_function true (fun _ _ => some 99) (some 5)
        { transValue := 0, transValueIsNull := true, noTransValue := true } ≠
      invokeCombineFn (fun _ _ => some 99) (some 5)
        { transValue := 0, transValueIsNull := true, noTransValue := true } :=
  ⟨rfl, rfl, by decide⟩

/-- C2 amended: a strict combine with a null incoming state is a no-op on
both combine paths; the hybrid spill reload path (`combine_transition`) is
never short-circuited on `noTransValue` — a non-null incoming state always
reaches the combine function with the existing state as argument 0; but the
split-mode input path (`advance_combine_function`) does short-circuit: with a
strict combine function and `noTransValue` set it adopts the incoming state
directly, and only with `noTransValue` clear does it invoke the combine
function. -/
theorem combine_paths_amended :
    (∀ (f : CombineFn) (pg : PerGroupState),
      combine_transition true f none pg = pg)
    ∧ (∀ (f : CombineFn) (pg : PerGroupState),
      advance_combine_function true f none pg = pg)
    ∧ (∀ (strict : Bool) (f : CombineFn) (v : Int) (pg : PerGroupState),
      combine_transition strict f (some v) pg = invokeCombineFn f (some v) pg)
    ∧ (∀ (strict : Bool) (f : CombineFn) (v : Int) (pg : PerGroupState),
      pg.noTransValue = false →
      advance_combine_function strict f (some v) pg =
        invokeCombineFn f (some v) pg)
    ∧ (∀ (f : CombineFn) (v : Int) (pg : PerGroupState),
      pg.noTransValue = true →
      advance_combine_function true f (some v) pg =
        { transValue := v, transValueIsNull := false, noTransValue := false }) := by
  refine ⟨fun f pg => ?_, fun f pg => ?_, fun strict f v pg => ?_,
    fun strict f v pg h => ?_, fun f v pg h => ?_⟩
  · simp [combine_transition]
  · simp [advance_combine_function]
  · cases strict <;> simp [combine_transition]
  · cases strict <;> simp [advance_combine_function, h]
  · simp [advance_combine_function, h, datumOf]

/-- Witness for C2's amended theorem at concrete inputs: a strict combine of
a non-null state into a seeded state (`noTransValue = false`) invokes the
combine function; the same step into an unseeded state adopts the value. -/
theorem combine_paths_amended_witness :
    advance_combine_function true (fun a _ => a.map (· + 1)) (some 5)
        { transValue := 7, transValueIsNull := false, noTransValue := false } =
      invokeCombineFn (fun a _ => a.map (· + 1)) (some 5)
        { transValue := 7, transValueIsNull := false, noTransValue := false }
    ∧ advance_combine_function true (fun a _ => a.map (· + 1)) (some 5)
        { transValue := 0, transValueIsNull := true, noTransValue := true } =
      { transValue := 5, transValueIsNull := false, noTransValue := false } :=
  ⟨combine_paths_amended.2.2.2.1 true (fun a _ => a.map (· + 1)) 5
      { transValue := 7, transValueIsNull := false, noTransValue := false } rfl,
    combine_paths_amended.2.2.2.2 (fun a _ => a.map (· + 1)) 5
      { transValue := 0, transValueIsNull := true, noTransValue := true } rfl⟩

/-- C9: `noTransValue` is monotone over a group's lifetime: initialization
sets it exactly when the initial value is null, and none of the three
advance/combine steps ever turns it from false back to true (each one either
clears it or leaves it unchanged, even when the new `transValueIsNull` is
true). -/
theorem noTransValue_monotone :
    (∀ initValue : Option Int,
      (initialize_aggregate initValue).noTransValue = initValue.isNone)
    ∧ (∀ (strict : Bool) (n : Nat) (f : TransFn) (args : List (Option Int))
        (pg : PerGroupState), pg.noTransValue = false →
      (advance_transition_function strict n f args pg).noTransValue = false)
    ∧ (∀ (strict : Bool) (f : CombineFn) (incoming : Option Int)
        (pg : PerGroupState), pg.noTransValue = false →
      (advance_combine_function strict f incoming pg).noTransValue = false)
    ∧ (∀ (strict : Bool) (f : CombineFn) (incoming : Option Int)
        (pg : PerGroupState), pg.noTransValue = false →
      (combine_transition strict f incoming pg).noTransValue = false) := by
  refine ⟨fun i => rfl, fun strict n f args pg h => ?_,
    fun strict f incoming pg h => ?_, fun strict f incoming pg h => ?_⟩
  · cases strict
    · simp [advance_transition_function, invokeTransFn, h]
    · by_cases h1 : anyNullArg args n
      · simp [advance_transition_function, h1, h]
      · by_cases h2 : pg.transValueIsNull
        · simp [advance_transition_function, h1, h2, h, invokeTransFn]
        · simp [advance_transition_function, h1, h2, h, invokeTransFn]
  · cases strict
    · simp [advance_combine_function, invokeCombineFn, h]
    · cases incoming with
      | none => simp [advance_combine_function, h]
      | some v => simp [advance_combine_function, invokeCombineFn, h]
  · cases strict
    · simp [combine_transition, invokeCombineFn, h]
    · cases incoming with
      | none => simp [combine_transition, h]
      | some v => simp [combine_transition, invokeCombineFn, h]

/-- Witness for C9 at concrete inputs: a seeded state stays seeded through a
transition step that returns null and through both combine steps. -/
theorem noTransValue_monotone_witness :
    (advance_transition_function true 1 (fun _ _ => none) [some 3]
      { transValue := 7, transValueIsNull := false, noTransValue := false
        }).noTransValue = false
    ∧ (advance_combine_function true (fun _ _ => none) (some 3)
      { transValue := 7, transValueIsNull := false, noTransValue := false
        }).noTransValue = false
    ∧ (combine_transition true (fun _ _ => none) (some 3)
      { transValue := 7, transValueIsNull := false, noTransValue := false
        }).noTransValue = false :=
  ⟨noTransValue_monotone.2.1 true 1 (fun _ _ => none) [some 3]
      { transValue := 7, transValueIsNull := false, noTransValue := false } rfl,
    noTransValue_monotone.2.2.1 true (fun _ _ => none) (some 3)
      { transValue := 7, transValueIsNull := false, noTransValue := false } rfl,
    noTransValue_monotone.2.2.2 true (fun _ _ => none) (some 3)
      { transValue := 7, transValueIsNull := false, noTransValue := false } rfl⟩

/-- C4 counterexample: with a capacity of zero resident entries (which
`OptimizeHybridHashtableSize` produces whenever `entrySize` exceeds
`work_mem` in bytes, e.g. `work_mem = 64` KB and `entrySize = 65537`:
`65536 / 65537 = 0`), the retried insert after the dump fails too, so the
`"could not find entry in hybrid-hashtable"` error branch is reachable. -/
theorem lookup_hash_entry_hybrid_counterexample :
    (OptimizeHybridHashtableSize 64 65537 1000 32).nentries = 0
    ∧ lookup_hash_entry_hybrid { nentries := 0, keys := [] } 7 = none := by
  constructor
  · rfl
  · rfl

/-- C4 amended: whenever the hybrid hash table admits at least one resident
entry (`nentries ≥ 1`, i.e. `entrySize ≤ work_mem` in bytes), the
dump-and-retry of `lookup_hash_entry` always yields an entry: a present key
is found outright, and a new key is admitted into the freshly reset table, so
the `"could not find entry in hybrid-hashtable"` error branch is not
reached. -/
theorem lookup_hash_entry_hybrid_succeeds (t : HybridHashTable) (k : Nat)
    (hcap : 1 ≤ t.nentries) :
    (lookup_hash_entry_hybrid t k).isSome = true := by
  unfold lookup_hash_entry_hybrid lookupTupleHashEntry dumpHybridReset
  by_cases hk : k ∈ t.keys
  · simp [hk]
  · by_cases hlen : t.keys.length < t.nentries
    · simp [hk, hlen]
    · have h0 : 0 < t.nentries := hcap
      simp [hk, hlen, h0]

/-- Witness for C4's amended theorem: a full one-entry table probed with a
new key; the dump-and-retry succeeds. -/
theorem lookup_hash_entry_hybrid_succeeds_witness :
    (1 : Nat) ≤ 1 ∧
      (lookup_hash_entry_hybrid { nentries := 1, keys := [3] } 7).isSome = true :=
  ⟨le_refl 1,
    lookup_hash_entry_hybrid_succeeds { nentries := 1, keys := [3] } 7 (le_refl 1)⟩

/-- C5: when hybrid mode is engaged, the resident-entry bound is
`⌊(work_mem * 1024) / entrySize⌋` (the C `ceil` is applied to a value already
truncated by integer division, so the stored bound is the floor of the byte
budget over the entry size), and the batch count is the configured default —
both independent of the group-count estimate. -/
theorem optimize_hybrid_sizing (work_mem entrySize numGroups numGroups2
    g_default : Nat) (_hes : 0 < entrySize) :
    (OptimizeHybridHashtableSize work_mem entrySize numGroups
        g_default).nentries = work_mem * 1024 / entrySize
    ∧ (OptimizeHybridHashtableSize work_mem entrySize numGroups
        g_default).nbatches = g_default
    ∧ OptimizeHybridHashtableSize work_mem entrySize numGroups g_default =
      OptimizeHybridHashtableSize work_mem entrySize numGroups2 g_default := by
  unfold OptimizeHybridHashtableSize
  refine ⟨?_, rfl, ?_⟩ <;> simp

/-- Witness for C5 at a concrete input: 1 KB of `work_mem`, 100-byte entries,
any group estimate: 10 resident entries and the default batch count 32. -/
theorem optimize_hybrid_sizing_witness :
    (0 : Nat) < 100
    ∧ (OptimizeHybridHashtableSize 1 100 5 32).nentries = 10
    ∧ (OptimizeHybridHashtableSize 1 100 5 32).nbatches = 32 :=
  ⟨by decide, (optimize_hybrid_sizing 1 100 5 6 32 (by decide)).1,
    (optimize_hybrid_sizing 1 100 5 6 32 (by decide)).2.1⟩

/-- `List.set` at an in-range index is read back by `getD` at that index. -/
theorem getD_set_self {α : Type} (l : List α) (i : Nat) (a d : α)
    (h : i < l.length) : (l.set i a).getD i d = a := by
  induction l generalizing i with
  | nil => simp at h
  | cons x xs ih =>
    cases i with
    | zero => rfl
    | succ j => exact ih j (by simpa using h)

/-- `List.set` leaves `getD` at every other index unchanged. -/
theorem getD_set_other {α : Type} (l : List α) (i j : Nat) (a d : α)
    (h : i ≠ j) : (l.set i a).getD j d = l.getD j d := by
  induction l generalizing i j with
  | nil => rfl
  | cons x xs ih =>
    cases i with
    | zero =>
      cases j with
      | zero => exact absurd rfl h
      | succ j2 => rfl
    | succ i2 =>
      cases j with
      | zero => rfl
      | succ j2 => exact ih i2 j2 (fun he => h (by rw [he]))

/-- Every `getD`-read of a replicated empty-batch array is empty. -/
theorem getD_replicate_nil (n i : Nat) :
    (List.replicate n ([] : List SpillRecord)).getD i [] = [] := by
  induction n generalizing i with
  | zero => cases i <;> rfl
  | succ m ih =>
    cases i with
    | zero => rfl
    | succ j => exact ih j

/-- A record read out of a batch of `appendAt batches idx r` was either
already in that batch, or is `r` itself sitting at batch `idx`. -/
theorem mem_appendAt (batches : List (List SpillRecord)) (idx i : Nat)
    (r r2 : SpillRecord) (hidx : idx < batches.length)
    (h : r2 ∈ (appendAt batches idx r).getD i []) :
    r2 ∈ batches.getD i [] ∨ (r2 = r ∧ i = idx) := by
  by_cases hie : i = idx
  · subst hie
    rw [appendAt, getD_set_self _ _ _ _ hidx] at h
    rcases List.mem_append.mp h with h2 | h2
    · exact Or.inl h2
    · exact Or.inr ⟨List.mem_singleton.mp h2, rfl⟩
  · rw [appendAt, getD_set_other _ _ _ _ _ (fun he => hie he.symm)] at h
    exact Or.inl h

/-- The invariant maintained while reloading one batch file of `spill_set`:
if the child spill set exists, it is exactly the one `makeChildSpillSet`
builds, its batch array has `num_files + 1` slots, and every record parked in
batch `i` has `hash % (num_files + 1) = i`. -/
def childInv (spill_set : SpillSetT) (s : ReloadState) : Prop :=
  ∀ (c : SpillSetT) (batches : List (List SpillRecord)),
    s.child = some (c, batches) →
    c = makeChildSpillSet spill_set
    ∧ batches.length = spill_set.num_files + 1
    ∧ ∀ (i : Nat) (r2 : SpillRecord), r2 ∈ batches.getD i [] →
        r2.hash % (spill_set.num_files + 1) = i

/-- The child spill set's batch count, reduced. -/
theorem makeChildSpillSet_num_files (spill_set : SpillSetT) :
    (makeChildSpillSet spill_set).num_files = spill_set.num_files + 1 := rfl

/-- `reloadRecord` preserves the child-spill-set invariant. -/
theorem reloadRecord_childInv (spill_set : SpillSetT) (s : ReloadState)
    (r : SpillRecord) (h : childInv spill_set s) :
    childInv spill_set (reloadRecord spill_set s r) := by
  unfold reloadRecord
  cases hl : lookupTupleHashEntry s.table r.key with
  | some p =>
    obtain ⟨t2, flag⟩ := p
    intro c batches hc
    exact h c batches hc
  | none =>
    cases hs : s.child with
    | none =>
      intro c batches hc
      simp only [Option.some.injEq, Prod.mk.injEq] at hc
      obtain ⟨hc1, hc2⟩ := hc
      subst hc1
      subst hc2
      refine ⟨rfl, ?_, ?_⟩
      · simp [appendAt]
      · intro i r2 hmem
        have hidx : r.hash % (makeChildSpillSet spill_set).num_files <
            (List.replicate (spill_set.num_files + 1)
              ([] : List SpillRecord)).length := by
          rw [makeChildSpillSet_num_files, List.length_replicate]
          exact Nat.mod_lt _ (Nat.succ_pos _)
        rcases mem_appendAt _ _ _ _ _ hidx hmem with h2 | ⟨rfl, rfl⟩
        · rw [getD_replicate_nil] at h2
          cases h2
        · rfl
    | some cb =>
      obtain ⟨c0, b0⟩ := cb
      obtain ⟨hcm, hlen, hplace⟩ := h c0 b0 hs
      intro c batches hc
      simp only [Option.some.injEq, Prod.mk.injEq] at hc
      obtain ⟨hc1, hc2⟩ := hc
      subst hc1
      subst hc2
      refine ⟨hcm, ?_, ?_⟩
      · simp [appendAt, hlen]
      · intro i r2 hmem
        have hnf : c0.num_files = spill_set.num_files + 1 := by
          rw [hcm, makeChildSpillSet_num_files]
        have hidx : r.hash % c0.num_files < b0.length := by
          rw [hnf, hlen]
          exact Nat.mod_lt _ (Nat.succ_pos _)
        rcases mem_appendAt _ _ _ _ _ hidx hmem with h2 | ⟨rfl, rfl⟩
        · exact hplace i r2 h2
        · rw [hnf]

/-- The fold of `reloadRecord` over a batch file preserves the invariant. -/
theorem reloadBatch_childInv (spill_set : SpillSetT)
    (rs : List SpillRecord) (s : ReloadState) (h : childInv spill_set s) :
    childInv spill_set (reloadBatch spill_set s rs) := by
  induction rs generalizing s with
  | nil => exact h
  | cons r rest ih =>
    exact ih (reloadRecord spill_set s r) (reloadRecord_childInv _ _ _ h)

/-- C6: when the hash table overflows while reloading a batch file of a
spill set with `B` batch slots at recursion level `L`, the child spill set
allocated by `LoadHybridHashtable` has exactly `B + 1` batch slots, level
`L + 1`, and a parent pointer to the spill set being reloaded; and every
record of the batch file that misses and cannot be inserted — from the first
overflow to the end of the file — is appended to child batch
`hash % (B + 1)`. -/
theorem reload_child_spill_set :
    (∀ spill_set : SpillSetT,
      (makeChildSpillSet spill_set).num_files = spill_set.num_files + 1
      ∧ (makeChildSpillSet spill_set).level = spill_set.level + 1
      ∧ (makeChildSpillSet spill_set).parent = some spill_set
      ∧ (makeChildSpillSet spill_set).current_file = 0)
    ∧ ∀ (spill_set : SpillSetT) (table : HybridHashTable)
        (rs : List SpillRecord) (c : SpillSetT)
        (batches : List (List SpillRecord)),
      (reloadBatch spill_set { table := table, child := none } rs).child =
        some (c, batches) →
      c = makeChildSpillSet spill_set
      ∧ batches.length = spill_set.num_files + 1
      ∧ ∀ (i : Nat) (r2 : SpillRecord), r2 ∈ batches.getD i [] →
          r2.hash % (spill_set.num_files + 1) = i := by
  refine ⟨fun spill_set => ⟨rfl, rfl, rfl, rfl⟩,
    fun spill_set table rs c batches hc => ?_⟩
  have hinv : childInv spill_set
      (reloadBatch spill_set { table := table, child := none } rs) :=
    reloadBatch_childInv spill_set rs { table := table, child := none }
      (fun c2 b2 hc2 => by cases hc2)
  exact hinv c batches hc

/-- Witness for C6 at a concrete input: reloading one record (hash 5) into a
zero-capacity table under a spill set with 2 batch slots at level 0 creates
the child set and parks the record in child batch `5 % 3 = 2`. -/
theorem reload_child_spill_set_witness :
    ([[], [], [{ hash := 5, key := 10 }]] :
        List (List SpillRecord)).length =
      (SpillSetT.mk 0 2 (-1) 1 none).num_files + 1
    ∧ ({ hash := 5, key := 10 } : SpillRecord).hash %
        ((SpillSetT.mk 0 2 (-1) 1 none).num_files + 1) = 2 := by
  have h := reload_child_spill_set.2 (SpillSetT.mk 0 2 (-1) 1 none)
    { nentries := 0, keys := [] } [{ hash := 5, key := 10 }]
    (makeChildSpillSet (SpillSetT.mk 0 2 (-1) 1 none))
    [[], [], [{ hash := 5, key := 10 }]] rfl
  exact ⟨h.2.1, h.2.2 2 { hash := 5, key := 10 } (by simp)⟩

/-- C7 counterexample: `ReDistributeHash` does not compute
`hashfunc(value) mod numWorkers`. With 3 workers and a hash function
returning 11, the code yields `(11 mod 2^3) mod 3 = 0`, while the claimed
formula yields `11 mod 3 = 2`. -/
theorem redistribute_hash_counterexample :
    ReDistributeHash 20 3 0 (fun _ => 11) = 0
    ∧ (((11 : Int) % (2 : Int) ^ 32).toNat) % 3 = 2
    ∧ (0 : Nat) ≠ 2 := ⟨rfl, rfl, by decide⟩

/-- C7 amended: the destination worker index is
`((hashfunc(value) as u32) mod 2^numWorkers) mod numWorkers` — the same
formula for every column type, because no arm of the C `switch` ends in
`break` and the `default` arm's assignment always wins — and the row is kept
locally exactly when this index equals the worker's own index (a null key
value routes to worker 0 instead of applying the hash). -/
theorem redistribute_hash_amended (dataType dataType2 numWorkers : Nat)
    (value : Int) (hashfunc : Int → Int) (selfIndex : Nat) :
    ReDistributeHash dataType numWorkers value hashfunc =
      ((hashfunc value % (2 : Int) ^ 32).toNat % 2 ^ numWorkers) % numWorkers
    ∧ ReDistributeHash dataType numWorkers value hashfunc =
      ReDistributeHash dataType2 numWorkers value hashfunc
    ∧ (ReDistributeKeepLocal selfIndex dataType numWorkers false value
          hashfunc = true ↔
        ReDistributeHash dataType numWorkers value hashfunc = selfIndex)
    ∧ (ReDistributeKeepLocal selfIndex dataType numWorkers true value
          hashfunc = true ↔ selfIndex = 0) := by
  refine ⟨rfl, rfl, ?_, ?_⟩
  · unfold ReDistributeKeepLocal
    simp only [Bool.false_eq_true, if_false, beq_iff_eq]
  · unfold ReDistributeKeepLocal
    constructor
    · intro h2
      have h3 : (0 : Nat) = selfIndex := by simpa using h2
      exact h3.symm
    · intro h2
      subst h2
      rfl

/-- One-step unfolding of the direct-path loop at positive fuel. -/
theorem agg_retrieve_direct_empty_succ (fuel : Nat) (s : AggRunState) :
    agg_retrieve_direct_empty (fuel + 1) s =
      if s.agg_done then (none, s)
      else
        let numsets := s.gsetLengths.length
        let hasGroupingSets : Bool := 0 < numsets
        let numGroupingSets : Int := Int.ofNat (max numsets 1)
        if s.input_done ∧ numGroupingSets - 1 ≤ s.projected_set then
          (none, { s with agg_done := true })
        else if s.input_done then
          (some (), { s with projected_set := s.projected_set + 1 })
        else if hasGroupingSets then
          let p := firstZeroIndex s.gsetLengths
          if numsets ≤ p then
            agg_retrieve_direct_empty fuel
              { s with projected_set := Int.ofNat p, input_done := true }
          else
            (some (),
              { s with projected_set := Int.ofNat p, input_done := true })
        else if s.strategy = .plain then
          (some (), { s with projected_set := 0, agg_done := true })
        else
          (none, { s with projected_set := 0, agg_done := true }) := rfl

/-- One-step unfolding of the per-call row counter at positive fuel, with the
state spelled out field by field. -/
theorem runEmptyCalls_succ (k : Nat) (strategy : AggStrategy) (L : List Nat)
    (p : Int) (idone adone : Bool) :
    runEmptyCalls (k + 1)
        { strategy := strategy, gsetLengths := L, projected_set := p,
          input_done := idone, agg_done := adone } =
      match agg_retrieve_direct_empty (L.length + 2)
          { strategy := strategy, gsetLengths := L, projected_set := p,
            input_done := idone, agg_done := adone } with
      | (none, _) => 0
      | (some _, s2) => 1 + runEmptyCalls k s2 := rfl

/-- Exhausted-input exit step: with `input_done` set and `projected_set`
already at the last grouping set, the loop sets `agg_done` and reports end of
stream. -/
theorem agg_retrieve_drain_exit (fuel : Nat) (strategy : AggStrategy)
    (L : List Nat) (p : Int)
    (h : Int.ofNat (max L.length 1) - 1 ≤ p) :
    agg_retrieve_direct_empty (fuel + 1)
        { strategy := strategy, gsetLengths := L, projected_set := p,
          input_done := true, agg_done := false } =
      (none,
        { strategy := strategy, gsetLengths := L, projected_set := p,
          input_done := true, agg_done := true }) := by
  rw [agg_retrieve_direct_empty_succ]
  rw [if_neg (by simp), if_pos ⟨rfl, h⟩]

/-- Exhausted-input projection step: with `input_done` set and grouping sets
still pending, the loop advances `projected_set` and projects one row. -/
theorem agg_retrieve_drain_emit (fuel : Nat) (strategy : AggStrategy)
    (L : List Nat) (p : Int)
    (h : ¬(Int.ofNat (max L.length 1) - 1 ≤ p)) :
    agg_retrieve_direct_empty (fuel + 1)
        { strategy := strategy, gsetLengths := L, projected_set := p,
          input_done := true, agg_done := false } =
      (some (),
        { strategy := strategy, gsetLengths := L, projected_set := p + 1,
          input_done := true, agg_done := false }) := by
  rw [agg_retrieve_direct_empty_succ]
  rw [if_neg (by simp), if_neg (fun hc => h hc.2), if_pos rfl]

/-- The first positive-length prefix is no longer than the list. -/
theorem firstZeroIndex_le (L : List Nat) : firstZeroIndex L ≤ L.length := by
  induction L with
  | nil => exact Nat.le_refl 0
  | cons a tl ih =>
    by_cases ha : 0 < a
    · simpa [firstZeroIndex, List.takeWhile, ha] using
        Nat.succ_le_succ (by simpa [firstZeroIndex] using ih)
    · simp [firstZeroIndex, List.takeWhile, ha]

/-- On an all-positive length list the positive prefix is everything. -/
theorem firstZeroIndex_of_all_pos (L : List Nat) (h : ∀ x ∈ L, 0 < x) :
    firstZeroIndex L = L.length := by
  induction L with
  | nil => rfl
  | cons a tl ih =>
    have ha : 0 < a := h a (List.mem_cons_self a tl)
    have htl := ih (fun x hx => h x (List.mem_cons_of_mem a hx))
    simpa [firstZeroIndex, List.takeWhile, ha] using htl

/-- Draining the remaining grouping sets on exhausted input: from a state
with `input_done` set and `projected_set = q`, exactly `d` more rows come out
where `q + d + 1 = numGroupingSets`, one per remaining grouping set. -/
theorem runEmptyCalls_drain (d : Nat) :
    ∀ (k : Nat) (strategy : AggStrategy) (L : List Nat) (q : Nat),
      q + d + 1 = max L.length 1 → d + 1 ≤ k →
      runEmptyCalls k
        { strategy := strategy, gsetLengths := L,
          projected_set := Int.ofNat q, input_done := true,
          agg_done := false } = d := by
  induction d with
  | zero =>
    intro k strategy L q hq hk
    obtain ⟨k2, rfl⟩ : ∃ k2, k = k2 + 1 :=
      ⟨k - 1, (Nat.succ_pred_eq_of_pos hk).symm⟩
    have hc1 : Int.ofNat (max L.length 1) - 1 ≤ Int.ofNat q := by
      rw [← hq]
      simp only [Int.ofNat_eq_natCast]
      push_cast
      omega
    rw [runEmptyCalls_succ]
    rw [show L.length + 2 = (L.length + 1) + 1 from rfl,
      agg_retrieve_drain_exit (L.length + 1) strategy L (Int.ofNat q) hc1]
  | succ d2 ih =>
    intro k strategy L q hq hk
    obtain ⟨k2, rfl⟩ : ∃ k2, k = k2 + 1 :=
      ⟨k - 1, (Nat.succ_pred_eq_of_pos (by omega)).symm⟩
    have hc1 : ¬ (Int.ofNat (max L.length 1) - 1 ≤ Int.ofNat q) := by
      rw [← hq]
      simp only [Int.ofNat_eq_natCast]
      push_cast
      omega
    rw [runEmptyCalls_succ]
    rw [show L.length + 2 = (L.length + 1) + 1 from rfl,
      agg_retrieve_drain_emit (L.length + 1) strategy L (Int.ofNat q) hc1]
    rw [show (Int.ofNat q + 1) = Int.ofNat (q + 1) from (Int.ofNat_succ q).symm]
    show 1 + runEmptyCalls k2
        { strategy := strategy, gsetLengths := L,
          projected_set := Int.ofNat (q + 1), input_done := true,
          agg_done := false } = d2 + 1
    rw [ih k2 strategy L (q + 1) (by omega) (by omega)]
    omega

/-- First call on an empty input when every grouping set is non-empty: the
`projected_set` scan runs off the end, the loop continues, and the phase ends
with no row. -/
theorem agg_retrieve_first_none (fuel : Nat) (strategy : AggStrategy)
    (L : List Nat) (hlen : 0 < L.length)
    (hp : firstZeroIndex L = L.length) :
    agg_retrieve_direct_empty (fuel + 1 + 1)
        { strategy := strategy, gsetLengths := L, projected_set := -1,
          input_done := false, agg_done := false } =
      (none,
        { strategy := strategy, gsetLengths := L,
          projected_set := Int.ofNat (firstZeroIndex L), input_done := true,
          agg_done := true }) := by
  rw [agg_retrieve_direct_empty_succ]
  rw [if_neg (by simp), if_neg (fun hc => Bool.false_ne_true hc.1),
    if_neg Bool.false_ne_true, if_pos (by simpa using hlen),
    if_pos (by rw [hp])]
  exact agg_retrieve_drain_exit fuel strategy L (Int.ofNat (firstZeroIndex L))
    (by
      rw [hp, Nat.max_eq_left (by omega : 1 ≤ L.length)]
      simp only [Int.ofNat_eq_natCast]
      omega)

/-- First call on an empty input when some grouping set is empty: the
`projected_set` scan stops at the first empty set and its row is
projected. -/
theorem agg_retrieve_first_some (fuel : Nat) (strategy : AggStrategy)
    (L : List Nat) (hlen : 0 < L.length)
    (hp : firstZeroIndex L < L.length) :
    agg_retrieve_direct_empty (fuel + 1 + 1)
        { strategy := strategy, gsetLengths := L, projected_set := -1,
          input_done := false, agg_done := false } =
      (some (),
        { strategy := strategy, gsetLengths := L,
          projected_set := Int.ofNat (firstZeroIndex L), input_done := true,
          agg_done := false }) := by
  rw [agg_retrieve_direct_empty_succ]
  rw [if_neg (by simp), if_neg (fun hc => Bool.false_ne_true hc.1),
    if_neg Bool.false_ne_true, if_pos (by simpa using hlen),
    if_neg (show ¬(L.length ≤ firstZeroIndex L) from by omega)]

/-- The row count of the direct path on empty input with grouping sets: one
row for the first empty grouping set (if any) and one for every set after
it. -/
theorem emptyInputRows_eq_sub (L : List Nat) (hL : L ≠ []) :
    emptyInputRows .sorted L = L.length - firstZeroIndex L := by
  have hlen : 0 < L.length := List.length_pos.mpr hL
  unfold emptyInputRows initialAggState
  rw [show L.length + 2 = (L.length + 1) + 1 from rfl, runEmptyCalls_succ]
  rcases Nat.lt_or_ge (firstZeroIndex L) L.length with hp | hp
  · rw [show L.length + 1 + 1 = L.length + 1 + 1 from rfl,
      agg_retrieve_first_some L.length .sorted L hlen hp]
    show 1 + runEmptyCalls (L.length + 1)
        { strategy := .sorted, gsetLengths := L,
          projected_set := Int.ofNat (firstZeroIndex L), input_done := true,
          agg_done := false } = L.length - firstZeroIndex L
    rw [runEmptyCalls_drain (L.length - 1 - firstZeroIndex L) (L.length + 1)
      .sorted L (firstZeroIndex L)
      (by rw [Nat.max_eq_left (by omega : 1 ≤ L.length)]; omega)
      (by omega)]
    omega
  · have hp2 : firstZeroIndex L = L.length :=
      Nat.le_antisymm (firstZeroIndex_le L) hp
    rw [agg_retrieve_first_none L.length .sorted L hlen hp2]
    show (0 : Nat) = L.length - firstZeroIndex L
    rw [hp2]
    omega

/-- With the grouping sets ordered most specific first (lengths
non-increasing), the sets past the first empty one are exactly the empty
ones. -/
theorem countP_zero_eq (L : List Nat)
    (hs : List.Pairwise (fun a b => b ≤ a) L) :
    L.countP (fun x => x == 0) = L.length - firstZeroIndex L := by
  induction L with
  | nil => rfl
  | cons a tl ih =>
    rw [List.pairwise_cons] at hs
    obtain ⟨ha, htl⟩ := hs
    by_cases h0 : a = 0
    · subst h0
      have hcount : tl.countP (fun x => x == 0) = tl.length :=
        List.countP_eq_length.mpr
          (fun x hx => by simp [Nat.le_zero.mp (ha x hx)])
      have hfz : firstZeroIndex (0 :: tl) = 0 := by
        simp [firstZeroIndex, List.takeWhile]
      rw [hfz, List.countP_cons, hcount]
      simp
    · have hpos : 0 < a := Nat.pos_of_ne_zero h0
      have hfz : firstZeroIndex (a :: tl) = firstZeroIndex tl + 1 := by
        simp [firstZeroIndex, List.takeWhile, hpos]
      have hle := firstZeroIndex_le tl
      rw [hfz, List.countP_cons, ih htl]
      simp [h0]

/-- C3 counterexample: a plan whose phase carries two empty grouping sets
(`GROUPING SETS ((), ())`) contains an empty grouping set, yet the aggregator
emits two rows on empty input, not exactly one. -/
theorem empty_input_two_empty_sets :
    emptyInputRows .sorted [0, 0] = 2 ∧ (2 : Nat) ≠ 1 := ⟨rfl, by decide⟩

/-- C3 amended: on an empty input stream (single phase, passing qual) the
direct path emits exactly one row per empty grouping set — so exactly one
row when the plan carries exactly one empty grouping set `()`; when every
grouping set has at least one grouping column it emits zero rows, reporting
end of stream on the first call; plain aggregation without grouping sets
emits exactly one row, and grouped aggregation without grouping sets emits
zero. -/
theorem empty_input_row_counts :
    (∀ L : List Nat, L ≠ [] → List.Pairwise (fun a b => b ≤ a) L →
      emptyInputRows .sorted L = L.countP (fun x => x == 0))
    ∧ (∀ L : List Nat, L ≠ [] → (∀ x ∈ L, 0 < x) →
      emptyInputRows .sorted L = 0
      ∧ (agg_retrieve_direct_empty (L.length + 2)
          (initialAggState .sorted L)).1 = none)
    ∧ emptyInputRows .plain [] = 1
    ∧ emptyInputRows .sorted [] = 0 := by
  refine ⟨fun L hL hs => ?_, fun L hL hpos => ⟨?_, ?_⟩, rfl, rfl⟩
  · rw [emptyInputRows_eq_sub L hL, countP_zero_eq L hs]
  · rw [emptyInputRows_eq_sub L hL, firstZeroIndex_of_all_pos L hpos]
    omega
  · have hlen : 0 < L.length := List.length_pos.mpr hL
    have hp := firstZeroIndex_of_all_pos L hpos
    unfold initialAggState
    rw [show L.length + 2 = L.length + 1 + 1 from rfl,
      agg_retrieve_first_none L.length .sorted L hlen hp]

/-- Witness for C3's amended theorem: a rollup `[2, 0]` with one empty set
emits exactly one row; a plain `GROUP BY` (`[1]`) emits none. -/
theorem empty_input_row_counts_witness :
    emptyInputRows .sorted [2, 0] = 1 ∧ emptyInputRows .sorted [1] = 0 :=
  ⟨(empty_input_row_counts.1 [2, 0] (by decide) (by decide)).trans rfl,
    (empty_input_row_counts.2.1 [1] (by decide) (by decide)).1⟩

/-- C8: `next()` is idempotent once the done flag is set: with `agg_done`
true, `ExecAgg` skips the strategy dispatch entirely (whatever the hashed
path would do) and every subsequent call returns end of stream with the
aggregation state untouched. -/
theorem exec_agg_idempotent_after_done
    (hashPath : AggRunState → Option Unit × AggRunState) (s : AggRunState)
    (h : s.agg_done = true) :
    ExecAggModel hashPath s = (none, s)
    ∧ ∀ n : Nat, ExecAggIter hashPath n s = (List.replicate n none, s) := by
  have h1 : ExecAggModel hashPath s = (none, s) := by
    unfold ExecAggModel
    rw [if_pos h]
  refine ⟨h1, fun n => ?_⟩
  induction n with
  | zero => rfl
  | succ m ih => simp [ExecAggIter, h1, ih, List.replicate_succ]

/-- Witness for C8 at a concrete done state: two further calls yield two
end-of-stream answers and the state is unchanged, for a hash path that would
otherwise misbehave. -/
theorem exec_agg_idempotent_after_done_witness :
    ExecAggIter
        (fun s => (some (), { s with agg_done := false })) 2
        { strategy := .hashed, gsetLengths := [], projected_set := 0,
          input_done := true, agg_done := true } =
      ([none, none],
        { strategy := .hashed, gsetLengths := [], projected_set := 0,
          input_done := true, agg_done := true }) :=
  (exec_agg_idempotent_after_done
    (fun s => (some (), { s with agg_done := false }))
    { strategy := .hashed, gsetLengths := [], projected_set := 0,
      input_done := true, agg_done := true } rfl).2 2

/-- A successful `Option`-valued `mapM` succeeds on every list element. -/
theorem mapM_some_forall {α β : Type} (f : α → Option β) :
    ∀ (l : List α) (out : List β), l.mapM f = some out →
      ∀ a ∈ l, ∃ b, f a = some b := by
  intro l
  induction l with
  | nil => intro out hout a ha; cases ha
  | cons x xs ih =>
    intro out hout a ha
    rw [List.mapM_cons] at hout
    cases hfx : f x with
    | none => rw [hfx] at hout; cases hout
    | some b =>
      rw [hfx] at hout
      cases hrest : xs.mapM f with
      | none => rw [hrest] at hout; cases hout
      | some bs =>
        rcases List.mem_cons.mp ha with rfl | ha2
        · exact ⟨b, hfx⟩
        · exact ih bs hrest a ha2

/-- If a slot with sort columns and a passing filter advances successfully,
its hashed per-group states were absent (the `Assert(!pergroups)`). -/
theorem advance_one_trans_sort_no_hash (t : TransSlotInput)
    (st out : TransSlotState) (hok : advance_one_trans t st = some out)
    (hsort : 0 < t.numSortCols) (hfil : t.filterPass = true) :
    st.hashed = none := by
  unfold advance_one_trans at hok
  rw [hfil] at hok
  simp only [Bool.not_true, Bool.false_eq_true, if_false, if_pos hsort] at hok
  cases hh : st.hashed with
  | none => rfl
  | some l => rw [hh] at hok; simp at hok

/-- C10: DISTINCT/ORDER-BY aggregates never meet hashed grouping: (a) when
`advance_aggregates` succeeds (no assertion failure), every slot with sort
columns whose filter passed had no hashed per-group states — its row went to
the sorter only when no hash states were being updated for the tuple; (b) a
successful advance of a slot with sort columns moves no per-group state at
all (the row only enters the sorter); (c) when the sorter-draining pass of
`finalize_aggregates` succeeds under a HASHED or MIXED strategy, no
per-transition slot has sort columns. -/
theorem sort_col_aggregates_not_hashed :
    (∀ (slots out : List (TransSlotInput × TransSlotState)),
      advance_aggregates slots = some out →
      ∀ p ∈ slots, 0 < p.1.numSortCols → p.1.filterPass = true →
        p.2.hashed = none)
    ∧ (∀ (t : TransSlotInput) (st out : TransSlotState),
      advance_one_trans t st = some out → 0 < t.numSortCols →
        out.hashed = st.hashed ∧ out.sorted = st.sorted)
    ∧ (∀ (strategy : AggStrategy) (sortCols : List Nat) (out : List Bool),
      finalize_aggregates_drain strategy sortCols = some out →
      (strategy = .hashed ∨ strategy = .mixed) →
      ∀ c ∈ sortCols, c = 0) := by
  refine ⟨fun slots out hok p hp hsort hfil => ?_,
    fun t st out hok hsort => ?_,
    fun strategy sortCols out hok hstrat c hc => ?_⟩
  · obtain ⟨q, hq⟩ := mapM_some_forall _ slots out hok p hp
    cases hone : advance_one_trans p.1 p.2 with
    | none => rw [hone] at hq; cases hq
    | some st2 => exact advance_one_trans_sort_no_hash p.1 p.2 st2 hone hsort hfil
  · unfold advance_one_trans at hok
    by_cases hfil : t.filterPass
    · simp only [hfil, Bool.not_true, Bool.false_eq_true, if_false,
        if_pos hsort] at hok
      cases hh : st.hashed with
      | some l => rw [hh] at hok; simp at hok
      | none =>
        rw [hh] at hok
        simp only [Option.isSome_none, Bool.false_eq_true, if_false] at hok
        split at hok <;>
          { injection hok with hout; subst hout; exact ⟨by simp [hh], rfl⟩ }
    · simp only [hfil] at hok
      simp at hok
      subst hok
      exact ⟨rfl, rfl⟩
  · obtain ⟨b, hb⟩ := mapM_some_forall _ sortCols out hok c hc
    unfold finalize_one_trans at hb
    by_cases hc0 : 0 < c
    · rw [if_pos hc0, if_pos hstrat] at hb
      cases hb
    · omega

/-- Witness for C10 at concrete inputs: one DISTINCT slot (sort columns,
passing filter, no hash states) advances by sorter insertion only, and a
finalize under the SORTED strategy drains it; the theorem then certifies the
slot had no hashed states and that a hashed-strategy finalize admits only
slots without sort columns. -/
theorem sort_col_aggregates_not_hashed_witness :
    (⟨some [⟨0, true, true⟩], none, []⟩ : TransSlotState).hashed = none
    ∧ ∀ c ∈ [0, 0], c = 0 := by
  constructor
  · exact sort_col_aggregates_not_hashed.1
      [(⟨true, 1, 1, fun _ _ => none, true, [some 4]⟩,
        ⟨some [⟨0, true, true⟩], none, []⟩)]
      [(⟨true, 1, 1, fun _ _ => none, true, [some 4]⟩,
        ⟨some [⟨0, true, true⟩], none, [[some 4]]⟩)]
      rfl _ (List.mem_singleton.mpr rfl) (by decide) rfl
  · exact sort_col_aggregates_not_hashed.2.2 .hashed [0, 0] [false, false]
      rfl (Or.inl rfl)

end NodeAgg
